import Mathlib

/-!
Verification of the point-cloud viewer's streaming frame codec, geometry
buffer manager, stream admission controller and archive frame sequencer.

The development shallowly embeds the JavaScript source:

* `parsePointCloudData` embeds the inline frame codec of
  `src/components/PCV.vue` (lines 147-189).  A raw decompressed buffer is a
  `List Nat` of byte values; a `DataView` read that runs past the end of
  the buffer throws a `RangeError`, which the source catches, so every
  reader returns an `Option`.
* 32-bit float values are carried as their IEEE-754 little-endian bit
  patterns (a `Nat` combined from four bytes).  The pipeline never does
  arithmetic on positions - it only copies them, and
  `Float32Array.prototype.set` from another `Float32Array` is a bit-exact
  copy - so bit patterns are a faithful and exact value domain.
* `updatePointCloud` embeds the geometry buffer manager of `PCV.vue`
  (lines 191-248) as a state transformer returning the mutated state and
  the error the internal `catch` block observed, if any.  JavaScript
  mutations performed before a throw persist, so the embedding threads the
  state through the statements of the source in order.
* `handleWebSocketMessage` embeds the admission gate of `PCV.vue`
  (lines 134-145) together with the decompress/decode/ingest pipeline it
  starts.
* `sortFrameNames` embeds the numeric frame-name sort of
  `src/components/PointCloudViewer.vue` (lines 101-105).
-/

namespace PCV


/-- Read one byte at `off`, as `DataView.prototype.getUint8`: the read
succeeds exactly when `off` is inside the buffer. -/
def readU8 (b : List Nat) (off : Nat) : Option Nat :=
  b[off]?

/-- Read a little-endian unsigned 32-bit value at `off`, as
`DataView.prototype.getUint32(off, true)`: all four bytes must be inside
the buffer, else the read throws (`none`). -/
def readU32LE (b : List Nat) (off : Nat) : Option Nat :=
  match b[off]?, b[off + 1]?, b[off + 2]?, b[off + 3]? with
  | some b0, some b1, some b2, some b3 =>
      some (b0 + 256 * b1 + 256 ^ 2 * b2 + 256 ^ 3 * b3)
  | _, _, _, _ => none

/-- Read a little-endian 32-bit float at `off`, as
`DataView.prototype.getFloat32(off, true)`.  The value is kept as its raw
bit pattern (see the module comment). -/
def readF32 (b : List Nat) (off : Nat) : Option Nat :=
  readU32LE b off

/-- Read `k` consecutive 32-bit floats starting at `off`, as the position
loop of `parsePointCloudData` (4 bytes per element). -/
def readF32s (b : List Nat) (off : Nat) : Nat → Option (List Nat)
  | 0 => some []
  | k + 1 =>
    match readF32 b off, readF32s b (off + 4) k with
    | some v, some rest => some (v :: rest)
    | _, _ => none

/-- Read `k` consecutive bytes starting at `off`, as the color loop of
`parsePointCloudData` (1 byte per element). -/
def readU8s (b : List Nat) (off : Nat) : Nat → Option (List Nat)
  | 0 => some []
  | k + 1 =>
    match readU8 b off, readU8s b (off + 1) k with
    | some v, some rest => some (v :: rest)
    | _, _ => none

/-- Decoded frame, mirroring the values `parsePointCloudData` hands to
`updatePointCloud`: point count, color flag, position bit patterns
(`numPoints * 3` of them) and, when the flag byte is nonzero, the raw
unnormalized color bytes (`numPoints * 3` of them). -/
structure DecodedFrame where
  numPoints : Nat
  hasColors : Bool
  positions : List Nat
  colors : Option (List Nat)
deriving DecidableEq, Repr

/-- Frame codec of `PCV.vue` lines 147-183: read the `u32` point count at
offset 0, the `u8` color flag at offset 4, then `numPoints * 3` floats
and, if the flag is nonzero (JavaScript truthiness), `numPoints * 3`
color bytes at offset `5 + 12 * numPoints`.  `none` is the `RangeError` a
short buffer produces, caught by the surrounding `try`. -/
def parsePointCloudData (b : List Nat) : Option DecodedFrame :=
  match readU32LE b 0, readU8 b 4 with
  | some numPoints, some hasColors =>
    match readF32s b 5 (numPoints * 3) with
    | some ps =>
      if hasColors ≠ 0 then
        match readU8s b (5 + 4 * (numPoints * 3)) (numPoints * 3) with
        | some cs => some ⟨numPoints, true, ps, some cs⟩
        | none => none
      else
        some ⟨numPoints, false, ps, none⟩
    | none => none
  | _, _ => none

/-- A JavaScript exception observed by the `catch` block of
`updatePointCloud`: `typeError` is a property access or method call on
`undefined`, `rangeError` an out-of-range bulk copy. -/
inductive JsErr where
  | typeError
  | rangeError
deriving DecidableEq, Repr

/-- State owned by the geometry buffer manager: the closure variables
`maxPoints`, `positions`, `colors` and `isFirstUpdate` of `PCV.vue`
(lines 33-36), the `color` attribute presence on the Three.js geometry,
`material.vertexColors` (initially `true`, line 75), and the geometry's
draw range (`none` is the Three.js initial `Infinity` count, before any
`setDrawRange` call).  Position storage holds f32 bit patterns, color
storage the normalized values written at copy-in (kept as exact
rationals).  `posAllocs` and `colorAllocs` are ghost counters that
increment exactly when the source allocates a `new Float32Array` for the
respective storage, making reallocation observable in theorems. -/
structure GBState where
  maxPoints : Nat
  positions : Option (List Nat)
  colors : Option (List ℚ)
  colorAttr : Bool
  vertexColors : Bool
  drawRange : Option Nat
  isFirstUpdate : Bool
  posAllocs : Nat
  colorAllocs : Nat
deriving DecidableEq, Repr

/-- Viewer state at stream start: `maxPoints = 0`, no storage allocated,
no `color` attribute, `vertexColors: true` from the material constructor,
draw range untouched, first update pending. -/
def initGB : GBState :=
  { maxPoints := 0, positions := none, colors := none, colorAttr := false,
    vertexColors := true, drawRange := none, isFirstUpdate := true,
    posAllocs := 0, colorAllocs := 0 }

/-- Growth branch of `updatePointCloud` (`PCV.vue` lines 193-216): when
`maxPoints < numPoints`, set `maxPoints := numPoints`, allocate fresh
zero-filled position storage of `maxPoints * 3` and rebind the position
attribute; with colors also allocate fresh color storage and raise the
attribute and `vertexColors`, otherwise drop the `color` attribute (if
bound) and clear `vertexColors`.  Otherwise no mutation at all. -/
def growStep (s : GBState) (colorsArray : Option (List Nat)) (numPoints : Nat) : GBState :=
  if s.maxPoints < numPoints then
    match colorsArray with
    | some _ =>
      { s with maxPoints := numPoints,
               positions := some (List.replicate (numPoints * 3) 0),
               posAllocs := s.posAllocs + 1,
               colors := some (List.replicate (numPoints * 3) (0 : ℚ)),
               colorAttr := true, vertexColors := true,
               colorAllocs := s.colorAllocs + 1 }
    | none =>
      { s with maxPoints := numPoints,
               positions := some (List.replicate (numPoints * 3) 0),
               posAllocs := s.posAllocs + 1,
               colorAttr := false, vertexColors := false }
  else s

/-- Effect of `positions.set(positionsArray.subarray(0, numPoints * 3))`
(`PCV.vue` line 219) on the target storage: `subarray` clamps to the
source length, `set` overwrites a prefix and leaves the tail. -/
def copyPositions (stor positionsArray : List Nat) (numPoints : Nat) : List Nat :=
  positionsArray.take (numPoints * 3) ++
    stor.drop (positionsArray.take (numPoints * 3)).length

/-- Effect of the color normalization loop (`PCV.vue` lines 224-226):
`colors[i] = colorsArray[i] / 255.0` for `i < numPoints * 3`.  A typed
array ignores out-of-range writes, which `List.set` matches.  In the
program `colorsArray` always has exactly `numPoints * 3` entries (the
codec allocates it so), hence the in-bounds read is total. -/
def writeColors (cstor : List ℚ) (carr : List Nat) (count : Nat) : List ℚ :=
  (List.range count).foldl (fun acc i => acc.set i ((carr.getD i 0 : ℚ) / 255)) cstor

/-- Tail of a successful `updatePointCloud` run (`PCV.vue` lines 231-240):
`setDrawRange(0, numPoints)`, bounding-sphere recomputation (no effect on
the modeled state) and the one-shot camera fit. -/
def finishFrame (s : GBState) (numPoints : Nat) : GBState × Option JsErr :=
  ({ s with drawRange := some numPoints, isFirstUpdate := false }, none)

/-- Geometry buffer manager, `updatePointCloud` of `PCV.vue` lines
191-248.  The body runs inside `try/catch`, so a thrown error is returned
alongside the state as mutated up to the throw:

* with no position storage (`positions` still `undefined`),
  `positions.set` throws a `TypeError`;
* `set` throws a `RangeError` if the source is longer than the target;
* with a `colorsArray` but no color storage, `colors[i] = ...` throws a
  `TypeError` on the first iteration (an empty loop throws nothing);
* `geometry.attributes.color.needsUpdate = true` throws a `TypeError`
  when the `color` attribute is not bound. -/
def updatePointCloud (s : GBState) (positionsArray : List Nat)
    (colorsArray : Option (List Nat)) (numPoints : Nat) : GBState × Option JsErr :=
  let s1 := growStep s colorsArray numPoints
  match s1.positions with
  | none => (s1, some JsErr.typeError)
  | some stor =>
    if (positionsArray.take (numPoints * 3)).length ≤ stor.length then
      let s2 := { s1 with positions := some (copyPositions stor positionsArray numPoints) }
      match colorsArray with
      | none => finishFrame s2 numPoints
      | some carr =>
        match s2.colors with
        | none =>
          if numPoints * 3 = 0 then
            if s2.colorAttr then finishFrame s2 numPoints
            else (s2, some JsErr.typeError)
          else (s2, some JsErr.typeError)
        | some cstor =>
          let s3 := { s2 with colors := some (writeColors cstor carr (numPoints * 3)) }
          if s3.colorAttr then finishFrame s3 numPoints
          else (s3, some JsErr.typeError)
    else (s1, some JsErr.rangeError)

/-- Position half of the reachable-state invariant: position storage
exists exactly after some growth (so `maxPoints > 0`) and then has
`maxPoints * 3` entries. -/
def posInv (s : GBState) : Bool :=
  match s.positions with
  | none => s.maxPoints == 0
  | some stor => (stor.length == s.maxPoints * 3) && (s.maxPoints != 0)

/-- Color half of the reachable-state invariant: a bound `color`
attribute implies color storage of `maxPoints * 3` entries (both are
refreshed together by a growth with colors, and only a growth changes
either). -/
def colorInv (s : GBState) : Bool :=
  !s.colorAttr ||
    (match s.colors with
     | none => false
     | some cs => cs.length == s.maxPoints * 3)

/-- Well-formedness of reachable manager states. -/
def gbInv (s : GBState) : Bool :=
  posInv s && colorInv s

/-- State shared between the transport callback and the pipeline: the
`isProcessing` flag (`PCV.vue` line 37) and the geometry buffer state.
`droppedCount` and `pipelineRuns` are ghost counters: a message bounced
by the gate increments the former, a message that enters the
decompress/decode pipeline increments the latter (making "never
decompressed or decoded" observable). -/
structure StreamState where
  processing : Bool
  gb : GBState
  droppedCount : Nat
  pipelineRuns : Nat
deriving DecidableEq, Repr

/-- Stream state when the socket opens: idle gate, fresh buffers. -/
def initStream : StreamState :=
  { processing := false, gb := initGB, droppedCount := 0, pipelineRuns := 0 }

/-- Tail of the pipeline after the codec: a decode failure is caught and
clears the flag; a decoded frame is ingested, then the `finally` clears
the flag. -/
def afterParse (s1 : StreamState) : Option DecodedFrame → StreamState
  | none => { s1 with processing := false }
  | some f =>
    { s1 with gb := (updatePointCloud s1.gb f.positions f.colors f.numPoints).1,
              processing := false }

/-- Tail of the pipeline after `pako.inflate`: a decompression failure is
caught and clears the flag; a raw buffer goes on to the codec. -/
def afterInflate (s1 : StreamState) : Option (List Nat) → StreamState
  | none => { s1 with processing := false }
  | some raw => afterParse s1 (parsePointCloudData raw)

/-- Admission gate plus pipeline, `handleWebSocketMessage` and
`parsePointCloudData` of `PCV.vue` lines 134-189.  If `isProcessing` is
set the message is dropped (logged) before any decompression.  Otherwise
the flag is raised and the synchronous pipeline runs: `pako.inflate` (an
external library, passed in as the `inflate` argument; `none` is a
thrown decompression error), then the codec, then the buffer ingest.
The `catch` of `parsePointCloudData` and the `finally` of
`updatePointCloud` both clear the flag, so every completion path ends
with `processing = false`. -/
def handleWebSocketMessage (inflate : List Nat → Option (List Nat))
    (s : StreamState) (data : List Nat) : StreamState :=
  if s.processing then
    { s with droppedCount := s.droppedCount + 1 }
  else
    afterInflate
      { s with processing := true, pipelineRuns := s.pipelineRuns + 1 }
      (inflate data)

/-- Exact integer value of a decimal digit string (an intermediate of the
`parseInt` model: JavaScript first determines this mathematical value and
then rounds it to a float64, see `parseIntVal`). -/
def digitsVal (ds : List Char) : Nat :=
  ds.foldl (fun a ch => 10 * a + (ch.toNat - 48)) 0

/-- The first maximal run of decimal digits in a name, as
`name.match(/\d+/)`: `none` when the name has no digit (the `match`
returns `null`). -/
def firstNumRun (name : String) : Option (List Char) :=
  match name.data.dropWhile (fun ch => ¬ ch.isDigit) with
  | [] => none
  | ch :: rest => some (ch :: rest.takeWhile Char.isDigit)

/-- Bit length of a natural number (index of the highest set bit plus
one), written with a structural fuel argument so that it evaluates by
plain reduction; the fuel `n` handed over by `bitLen` is always enough
because the value halves on every step. -/
def bitLenAux : Nat → Nat → Nat
  | 0, _ => 0
  | fuel + 1, n => if n = 0 then 0 else bitLenAux fuel (n / 2) + 1

/-- Bit length of a natural number. -/
def bitLen (n : Nat) : Nat :=
  bitLenAux n n

/-- Round a natural number to the nearest IEEE-754 binary64 value, ties
to even: values below `2 ^ 53` are exact; larger values keep the top 53
bits as mantissa and the cut-off remainder rounds to nearest, a half to
the even mantissa.  This is what JavaScript number semantics do to the
exact integer value of a digit string (overflow to `Infinity` is handled
by the caller, `parseIntVal`). -/
def f64RoundNat (n : Nat) : Nat :=
  if n < 2 ^ 53 then n
  else
    let e := bitLen n - 53
    let q := n / 2 ^ e
    let r := n % 2 ^ e
    let q' := if 2 ^ (e - 1) < r then q + 1
              else if r < 2 ^ (e - 1) then q
              else if q % 2 = 0 then q else q + 1
    q' * 2 ^ e

/-- Smallest integer that rounds past the largest finite float64
`(2 ^ 53 - 1) * 2 ^ 971` and therefore overflows to `Infinity`, namely
`2 ^ 1024 - 2 ^ 970` (the midpoint above the largest finite value, which
ties to the even `2 ^ 1024`).  Written with shifts (`1 <<< k = 2 ^ k`)
so that it evaluates by plain reduction. -/
def f64OverflowBound : Nat :=
  (1 <<< 1024) - (1 <<< 970)

/-- A JavaScript number as produced by `parseInt` on a digit run: a
float64-representable nonnegative integer, or `Infinity` when the run's
value overflows float64 (309 and more significant digits). -/
inductive JsNum where
  | finite (v : Nat)
  | infinity
deriving DecidableEq, Repr

/-- Value of `parseInt` on a nonempty decimal digit string (the match of
`/\d+/` is always such a string): the exact integer value rounded to
float64, `Infinity` on overflow.  Distinct digit runs at and beyond
`2 ^ 53` can round to the same value. -/
def parseIntVal (ds : List Char) : JsNum :=
  if digitsVal ds < f64OverflowBound then
    JsNum.finite (f64RoundNat (digitsVal ds))
  else
    JsNum.infinity

/-- Numeric sort key of a frame name:
`parseInt(name.match(/\d+/)[0])` as a float64, or `none` where the
source would throw a `TypeError` (indexing `[0]` on a `null` match). -/
def numKey (name : String) : Option JsNum :=
  (firstNumRun name).map parseIntVal

/-- Total version of the key for defining the comparator-driven order
(only applied to names whose key exists). -/
def keyOf (name : String) : JsNum :=
  (numKey name).getD (JsNum.finite 0)

/-- Order the comparator `(a, b) => aNum - bNum` induces on parsed keys.
For finite doubles the sign of the float difference equals the sign of
the exact difference (a nonzero difference of two doubles is at least
one ulp of the smaller and never rounds to zero).
`Infinity - Infinity` is `NaN`, which `Array.prototype.sort` treats as
`+0`, so all `Infinity` keys tie; `Infinity` compares above every finite
value. -/
def keyLE : JsNum → JsNum → Bool
  | JsNum.finite a, JsNum.finite b => decide (a ≤ b)
  | _, JsNum.infinity => true
  | JsNum.infinity, JsNum.finite _ => false

/-- Stable insertion of a name into an already ordered list: the new name
goes in front of the first name whose key is not smaller.  An element
walks past only names with strictly smaller keys, so relative order of
equal keys is preserved. -/
def insertFrame (x : String) : List String → List String
  | [] => [x]
  | y :: ys => if keyLE (keyOf x) (keyOf y) then x :: y :: ys else y :: insertFrame x ys

/-- The stable sort by numeric key.  `Array.prototype.sort` is required
to be stable (ES2019) and the comparator
`(a, b) => parseInt(a.match(/\d+/)[0]) - parseInt(b.match(/\d+/)[0])`
induces the total preorder `keyLE (keyOf a) (keyOf b)` on float64 keys;
a stable sort for a total preorder is unique, so insertion sort is the
function the engine computes. -/
def sortByNumKey : List String → List String
  | [] => []
  | x :: xs => insertFrame x (sortByNumKey xs)

/-- The frame-name sort of `processH5File` (`PointCloudViewer.vue` lines
101-105): `frame_names.sort((a, b) => aNum - bNum)` where each key is
`parseInt(x.match(/\d+/)[0])`.  With at most one name the engine never
invokes the comparator, so the call returns the list unchanged even if a
name has no digit.  With two or more names every element takes part in at
least one comparison (engines compare all adjacent pairs while detecting
runs), so a digit-less name makes the comparator throw a `TypeError`
(`none` here), which aborts the sort and the whole archive load. -/
def sortFrameNames (names : List String) : Option (List String) :=
  if names.length ≤ 1 then some names
  else if names.all (fun nm => (numKey nm).isSome) then some (sortByNumKey names)
  else none

theorem isSome_getElem_aux {α : Type} (l : List α) (n : Nat) :
    (l[n]?).isSome = true ↔ n < l.length := by
  rw [Option.isSome_iff_exists]
  constructor
  · rintro ⟨a, ha⟩
    exact (List.getElem?_eq_some.mp ha).1
  · intro h
    exact ⟨l[n], List.getElem?_eq_some.mpr ⟨h, rfl⟩⟩

theorem readU8_isSome (b : List Nat) (off : Nat) :
    (readU8 b off).isSome = true ↔ off + 1 ≤ b.length := by
  rw [readU8, isSome_getElem_aux]
  omega

theorem readU32LE_isSome (b : List Nat) (off : Nat) :
    (readU32LE b off).isSome = true ↔ off + 4 ≤ b.length := by
  constructor
  · intro h
    by_contra hlen
    have h3 : b[off + 3]? = none := List.getElem?_eq_none_iff.mpr (by omega)
    rw [readU32LE, h3] at h
    revert h
    rcases b[off]? with _ | b0 <;> rcases b[off + 1]? with _ | b1 <;>
      rcases b[off + 2]? with _ | b2 <;> simp
  · intro hlen
    rw [readU32LE,
      List.getElem?_eq_getElem (show off < b.length by omega),
      List.getElem?_eq_getElem (show off + 1 < b.length by omega),
      List.getElem?_eq_getElem (show off + 2 < b.length by omega),
      List.getElem?_eq_getElem (show off + 3 < b.length by omega)]
    rfl

theorem readF32s_isSome (b : List Nat) (k : Nat) : ∀ off,
    (readF32s b off k).isSome = true ↔ (k = 0 ∨ off + 4 * k ≤ b.length) := by
  induction k with
  | zero => intro off; simp [readF32s]
  | succ k ih =>
    intro off
    rw [readF32s]
    constructor
    · rcases hv : readF32 b off with _ | v
      · simp
      · rcases hr : readF32s b (off + 4) k with _ | rest
        · simp
        · intro _
          right
          have h1 : off + 4 ≤ b.length :=
            (readU32LE_isSome b off).mp (by rw [show readU32LE b off = readF32 b off from rfl, hv]; rfl)
          have h2 := (ih (off + 4)).mp (by rw [hr]; rfl)
          rcases h2 with h2 | h2 <;> omega
    · intro h
      have hlen : off + 4 * (k + 1) ≤ b.length := by omega
      obtain ⟨v, hv⟩ := Option.isSome_iff_exists.mp
        ((readU32LE_isSome b off).mpr (by omega))
      obtain ⟨rest, hr⟩ := Option.isSome_iff_exists.mp
        ((ih (off + 4)).mpr (by omega))
      rw [show readF32 b off = readU32LE b off from rfl, hv, hr]
      rfl

theorem readU8s_isSome (b : List Nat) (k : Nat) : ∀ off,
    (readU8s b off k).isSome = true ↔ (k = 0 ∨ off + k ≤ b.length) := by
  induction k with
  | zero => intro off; simp [readU8s]
  | succ k ih =>
    intro off
    rw [readU8s]
    constructor
    · rcases hv : readU8 b off with _ | v
      · simp
      · rcases hr : readU8s b (off + 1) k with _ | rest
        · simp
        · intro _
          right
          have h1 : off + 1 ≤ b.length := (readU8_isSome b off).mp (by rw [hv]; rfl)
          have h2 := (ih (off + 1)).mp (by rw [hr]; rfl)
          rcases h2 with h2 | h2 <;> omega
    · intro h
      have hlen : off + (k + 1) ≤ b.length := by omega
      obtain ⟨v, hv⟩ := Option.isSome_iff_exists.mp
        ((readU8_isSome b off).mpr (by omega))
      obtain ⟨rest, hr⟩ := Option.isSome_iff_exists.mp
        ((ih (off + 1)).mpr (by omega))
      rw [hv, hr]
      rfl

theorem readF32s_length (b : List Nat) (k : Nat) : ∀ off l,
    readF32s b off k = some l → l.length = k := by
  induction k with
  | zero =>
    intro off l h
    rw [readF32s] at h
    cases h
    rfl
  | succ k ih =>
    intro off l h
    rw [readF32s] at h
    revert h
    rcases readF32 b off with _ | v <;> rcases hr : readF32s b (off + 4) k with _ | rest <;>
      intro h <;> simp at h
    rw [← h]
    simp [ih _ _ hr]

theorem readU8s_length (b : List Nat) (k : Nat) : ∀ off l,
    readU8s b off k = some l → l.length = k := by
  induction k with
  | zero =>
    intro off l h
    rw [readU8s] at h
    cases h
    rfl
  | succ k ih =>
    intro off l h
    rw [readU8s] at h
    revert h
    rcases readU8 b off with _ | v <;> rcases hr : readU8s b (off + 1) k with _ | rest <;>
      intro h <;> simp at h
    rw [← h]
    simp [ih _ _ hr]

/-- Bytes read by the color loop are the wire bytes themselves: element `i`
of the result is byte `off + i` of the buffer, untransformed. -/
theorem readU8s_getElem (b : List Nat) (k : Nat) : ∀ off l,
    readU8s b off k = some l → ∀ i < k, l[i]? = b[off + i]? := by
  induction k with
  | zero =>
    intro off l _ i hi
    omega
  | succ k ih =>
    intro off l h i hi
    rw [readU8s] at h
    revert h
    rcases hv : readU8 b off with _ | v <;> rcases hr : readU8s b (off + 1) k with _ | rest <;>
      intro h <;> simp at h
    rw [← h]
    rcases i with _ | i
    · rw [show b[off + 0]? = readU8 b off from rfl, hv]
      simp
    · have := ih (off + 1) rest hr i (by omega)
      simpa [Nat.add_comm, Nat.add_left_comm] using this

/-- Decode succeeds exactly when the buffer reaches the size its own header
implies.  Helper shared by the claim theorems below. -/
theorem parse_isSome_iff (b : List Nat) (n hc : Nat)
    (hn : readU32LE b 0 = some n) (hhc : readU8 b 4 = some hc) :
    (parsePointCloudData b).isSome = true ↔
      5 + 12 * n + (if hc ≠ 0 then 3 * n else 0) ≤ b.length := by
  have hlen5 : 5 ≤ b.length := by
    have := (readU8_isSome b 4).mp (by rw [hhc]; rfl)
    omega
  rw [parsePointCloudData, hn, hhc]
  rcases hps : readF32s b 5 (n * 3) with _ | ps
  · have hfail : ¬ (n * 3 = 0 ∨ 5 + 4 * (n * 3) ≤ b.length) := by
      intro hcontra
      have := (readF32s_isSome b (n * 3) 5).mpr hcontra
      rw [hps] at this
      simp at this
    push_neg at hfail
    by_cases h0 : hc = 0 <;> simp [h0, hps] <;> omega
  · have hps' : n * 3 = 0 ∨ 5 + 4 * (n * 3) ≤ b.length :=
      (readF32s_isSome b (n * 3) 5).mp (by rw [hps]; rfl)
    by_cases h0 : hc = 0
    · simp [h0, hps]
      omega
    · rcases hcs : readU8s b (5 + 4 * (n * 3)) (n * 3) with _ | cs
      · have hfail : ¬ (n * 3 = 0 ∨ 5 + 4 * (n * 3) + n * 3 ≤ b.length) := by
          intro hcontra
          have := (readU8s_isSome b (n * 3) (5 + 4 * (n * 3))).mpr hcontra
          rw [hcs] at this
          simp at this
        push_neg at hfail
        simp [h0, hps, hcs]
        omega
      · have hcs' : n * 3 = 0 ∨ 5 + 4 * (n * 3) + n * 3 ≤ b.length :=
          (readU8s_isSome b (n * 3) (5 + 4 * (n * 3))).mp (by rw [hcs]; rfl)
        simp [h0, hps, hcs]
        omega

/-- A successfully decoded frame is never silently truncated: it carries the
header's point count, `numPoints * 3` position values and, when the flag
byte was nonzero, exactly `numPoints * 3` color bytes (otherwise no color
array at all, matching `colorsArray = null`). -/
theorem parse_shape (b : List Nat) (f : DecodedFrame)
    (h : parsePointCloudData b = some f) :
    readU32LE b 0 = some f.numPoints ∧
    f.positions.length = f.numPoints * 3 ∧
    (f.hasColors = true → ∃ cs, f.colors = some cs ∧ cs.length = f.numPoints * 3) ∧
    (f.hasColors = false → f.colors = none) := by
  rw [parsePointCloudData] at h
  rcases hn : readU32LE b 0 with _ | n <;> rw [hn] at h <;> try simp at h
  rcases hhc : readU8 b 4 with _ | hc <;> rw [hhc] at h <;> try simp at h
  rcases hps : readF32s b 5 (n * 3) with _ | ps <;> rw [hps] at h <;> try simp at h
  by_cases h0 : hc = 0
  · rw [if_pos h0] at h
    obtain rfl : (⟨n, false, ps, none⟩ : DecodedFrame) = f := Option.some.inj h
    exact ⟨rfl, readF32s_length b _ _ _ hps, by simp, fun _ => rfl⟩
  · rw [if_neg h0] at h
    rcases hcs : readU8s b (5 + 4 * (n * 3)) (n * 3) with _ | cs <;> rw [hcs] at h <;>
      try simp at h
    obtain rfl : (⟨n, true, ps, some cs⟩ : DecodedFrame) = f := h
    exact ⟨rfl, readF32s_length b _ _ _ hps,
      fun _ => ⟨cs, rfl, readU8s_length b _ _ _ hcs⟩, by simp⟩

theorem posInv_some (s : GBState) (stor : List Nat)
    (h : posInv s = true) (hpos : s.positions = some stor) :
    stor.length = s.maxPoints * 3 ∧ 0 < s.maxPoints := by
  rw [posInv, hpos] at h
  simp at h
  omega

theorem posInv_none (s : GBState)
    (h : posInv s = true) (hpos : s.positions = none) : s.maxPoints = 0 := by
  rw [posInv, hpos] at h
  simpa using h

theorem colorInv_attr (s : GBState)
    (h : colorInv s = true) (hattr : s.colorAttr = true) :
    ∃ cs, s.colors = some cs ∧ cs.length = s.maxPoints * 3 := by
  rw [colorInv, hattr] at h
  rcases hcol : s.colors with _ | cs <;> rw [hcol] at h <;> simp at h
  exact ⟨cs, rfl, h⟩

theorem writeColors_zero (cstor : List ℚ) (carr : List Nat) :
    writeColors cstor carr 0 = cstor := rfl

theorem writeColors_succ (cstor : List ℚ) (carr : List Nat) (count : Nat) :
    writeColors cstor carr (count + 1) =
      (writeColors cstor carr count).set count ((carr.getD count 0 : ℚ) / 255) := by
  rw [writeColors, writeColors, List.range_succ, List.foldl_append]
  rfl

theorem writeColors_length (cstor : List ℚ) (carr : List Nat) (count : Nat) :
    (writeColors cstor carr count).length = cstor.length := by
  induction count with
  | zero => rfl
  | succ count ih => rw [writeColors_succ, List.length_set, ih]

theorem writeColors_getElem (cstor : List ℚ) (carr : List Nat) (count : Nat) :
    ∀ i < count, i < cstor.length →
      (writeColors cstor carr count)[i]? = some ((carr.getD i 0 : ℚ) / 255) := by
  induction count with
  | zero => omega
  | succ count ih =>
    intro i hi hlen
    rw [writeColors_succ]
    by_cases hci : i = count
    · subst hci
      rw [List.getElem?_set_self (by rw [writeColors_length]; exact hlen)]
    · rw [List.getElem?_set_ne (by omega)]
      exact ih i (by omega) hlen

theorem copyPositions_length (stor p : List Nat) (n : Nat)
    (h : (p.take (n * 3)).length ≤ stor.length) :
    (copyPositions stor p n).length = stor.length := by
  rw [copyPositions, List.length_append, List.length_drop]
  omega

theorem copyPositions_take (stor p : List Nat) (n : Nat)
    (hp : p.length = n * 3) :
    (copyPositions stor p n).take (n * 3) = p := by
  have h1 : p.take (n * 3) = p := List.take_of_length_le (by omega)
  rw [copyPositions, h1, ← hp]
  exact List.take_left p _

theorem take_length_le {α : Type} (p : List α) (k : Nat) : (p.take k).length ≤ k := by
  rw [List.length_take]
  exact Nat.min_le_left _ _


/-- Evaluation of `updatePointCloud` on a growing colorless frame: grow,
copy positions, drop the color attribute, finish. -/
theorem updatePointCloud_eval_grow_none (s : GBState) (p : List Nat) (n : Nat)
    (hg : s.maxPoints < n) :
    updatePointCloud s p none n =
      ({ s with maxPoints := n,
                positions := some (copyPositions (List.replicate (n * 3) 0) p n),
                posAllocs := s.posAllocs + 1,
                colorAttr := false, vertexColors := false,
                drawRange := some n, isFirstUpdate := false }, none) := by
  simp only [updatePointCloud, growStep, if_pos hg]
  rw [if_pos (by rw [List.length_replicate]; exact take_length_le p (n * 3))]
  rfl

/-- Evaluation of `updatePointCloud` on a growing colored frame: grow both
storages, copy positions, normalize colors into the fresh storage,
finish. -/
theorem updatePointCloud_eval_grow_some (s : GBState) (p carr : List Nat) (n : Nat)
    (hg : s.maxPoints < n) :
    updatePointCloud s p (some carr) n =
      ({ s with maxPoints := n,
                positions := some (copyPositions (List.replicate (n * 3) 0) p n),
                posAllocs := s.posAllocs + 1,
                colors := some (writeColors (List.replicate (n * 3) (0 : ℚ)) carr (n * 3)),
                colorAttr := true, vertexColors := true,
                colorAllocs := s.colorAllocs + 1,
                drawRange := some n, isFirstUpdate := false }, none) := by
  simp only [updatePointCloud, growStep, if_pos hg]
  rw [if_pos (by rw [List.length_replicate]; exact take_length_le p (n * 3))]
  rfl

/-- Evaluation on a non-growing frame with no position storage yet:
`positions.set` on `undefined` throws before any other mutation. -/
theorem updatePointCloud_eval_nopos (s : GBState) (p : List Nat)
    (c : Option (List Nat)) (n : Nat)
    (hg : ¬ s.maxPoints < n) (hpos : s.positions = none) :
    updatePointCloud s p c n = (s, some JsErr.typeError) := by
  simp only [updatePointCloud, growStep, if_neg hg, hpos]

/-- Evaluation on a non-growing frame whose clamped source would overrun
the target storage: `set` throws a `RangeError` before writing. -/
theorem updatePointCloud_eval_range (s : GBState) (p : List Nat)
    (c : Option (List Nat)) (n : Nat) (stor : List Nat)
    (hg : ¬ s.maxPoints < n) (hpos : s.positions = some stor)
    (hle : ¬ (p.take (n * 3)).length ≤ stor.length) :
    updatePointCloud s p c n = (s, some JsErr.rangeError) := by
  simp only [updatePointCloud, growStep, if_neg hg, hpos]
  rw [if_neg hle]

/-- Evaluation on a non-growing colorless frame: copy positions into the
existing storage, finish. -/
theorem updatePointCloud_eval_copy_none (s : GBState) (p : List Nat) (n : Nat)
    (stor : List Nat)
    (hg : ¬ s.maxPoints < n) (hpos : s.positions = some stor)
    (hle : (p.take (n * 3)).length ≤ stor.length) :
    updatePointCloud s p none n =
      ({ s with positions := some (copyPositions stor p n),
                drawRange := some n, isFirstUpdate := false }, none) := by
  simp only [updatePointCloud, growStep, if_neg hg, hpos]
  rw [if_pos hle]
  rfl

/-- Evaluation on a non-growing colored frame with no color storage and a
nonempty loop, or with no bound color attribute: the positions are
already copied when the color step throws a `TypeError`. -/
theorem updatePointCloud_eval_colors_missing (s : GBState) (p carr : List Nat)
    (n : Nat) (stor : List Nat)
    (hg : ¬ s.maxPoints < n) (hpos : s.positions = some stor)
    (hle : (p.take (n * 3)).length ≤ stor.length)
    (hcol : s.colors = none)
    (h : n * 3 ≠ 0 ∨ s.colorAttr = false) :
    updatePointCloud s p (some carr) n =
      ({ s with positions := some (copyPositions stor p n) },
        some JsErr.typeError) := by
  simp only [updatePointCloud, growStep, if_neg hg, hpos]
  rw [if_pos hle]
  simp only [hcol]
  rcases h with h | h
  · rw [if_neg h]
  · by_cases h0 : n * 3 = 0
    · rw [if_pos h0]
      simp only [h]
      rfl
    · rw [if_neg h0]

/-- Evaluation on a non-growing colored frame with no color storage, an
empty loop and a bound color attribute (unreachable from the initial
state, but a case of the code): nothing to write, finish. -/
theorem updatePointCloud_eval_colors_empty_ok (s : GBState) (p carr : List Nat)
    (n : Nat) (stor : List Nat)
    (hg : ¬ s.maxPoints < n) (hpos : s.positions = some stor)
    (hle : (p.take (n * 3)).length ≤ stor.length)
    (hcol : s.colors = none) (h0 : n * 3 = 0) (hattr : s.colorAttr = true) :
    updatePointCloud s p (some carr) n =
      ({ s with positions := some (copyPositions stor p n),
                drawRange := some n, isFirstUpdate := false }, none) := by
  simp only [updatePointCloud, growStep, if_neg hg, hpos]
  rw [if_pos hle]
  simp only [hcol]
  rw [if_pos h0]
  simp only [hattr]
  rfl

/-- Evaluation on a non-growing colored frame with color storage and the
color attribute bound: copy positions, normalize colors in place,
finish. -/
theorem updatePointCloud_eval_colors_ok (s : GBState) (p carr : List Nat)
    (n : Nat) (stor : List Nat) (cstor : List ℚ)
    (hg : ¬ s.maxPoints < n) (hpos : s.positions = some stor)
    (hle : (p.take (n * 3)).length ≤ stor.length)
    (hcol : s.colors = some cstor) (hattr : s.colorAttr = true) :
    updatePointCloud s p (some carr) n =
      ({ s with positions := some (copyPositions stor p n),
                colors := some (writeColors cstor carr (n * 3)),
                drawRange := some n, isFirstUpdate := false }, none) := by
  simp only [updatePointCloud, growStep, if_neg hg, hpos]
  rw [if_pos hle]
  simp only [hcol, hattr]
  rfl

/-- Evaluation on a non-growing colored frame with color storage but the
color attribute deleted by an earlier colorless growth: the color values
are written, then `needsUpdate` on the missing attribute throws. -/
theorem updatePointCloud_eval_colors_noattr (s : GBState) (p carr : List Nat)
    (n : Nat) (stor : List Nat) (cstor : List ℚ)
    (hg : ¬ s.maxPoints < n) (hpos : s.positions = some stor)
    (hle : (p.take (n * 3)).length ≤ stor.length)
    (hcol : s.colors = some cstor) (hattr : s.colorAttr = false) :
    updatePointCloud s p (some carr) n =
      ({ s with positions := some (copyPositions stor p n),
                colors := some (writeColors cstor carr (n * 3)) },
        some JsErr.typeError) := by
  simp only [updatePointCloud, growStep, if_neg hg, hpos]
  rw [if_pos hle]
  simp only [hcol, hattr]
  rfl

/-- Capacity behaviour of one `updatePointCloud` call, on every execution
path (the growth branch runs before any possible throw): `maxPoints`
becomes the maximum of the old capacity and the frame size; a strictly
larger frame triggers exactly one position reallocation to exactly
`numPoints * 3` entries (and, when the frame has colors, one color
reallocation to the same size); a non-growing frame triggers no
reallocation and every storage keeps its length. -/
theorem updatePointCloud_capacity (s : GBState) (p : List Nat)
    (c : Option (List Nat)) (n : Nat) :
    ((updatePointCloud s p c n).1.maxPoints = max s.maxPoints n) ∧
    (s.maxPoints < n →
      (updatePointCloud s p c n).1.posAllocs = s.posAllocs + 1 ∧
      (∃ stor, (updatePointCloud s p c n).1.positions = some stor ∧
        stor.length = n * 3) ∧
      (c.isSome = true →
        (updatePointCloud s p c n).1.colorAllocs = s.colorAllocs + 1 ∧
        ∃ cs, (updatePointCloud s p c n).1.colors = some cs ∧
          cs.length = n * 3)) ∧
    (¬ s.maxPoints < n →
      (updatePointCloud s p c n).1.maxPoints = s.maxPoints ∧
      (updatePointCloud s p c n).1.posAllocs = s.posAllocs ∧
      (updatePointCloud s p c n).1.colorAllocs = s.colorAllocs ∧
      (∀ stor, s.positions = some stor →
        ∃ stor2, (updatePointCloud s p c n).1.positions = some stor2 ∧
          stor2.length = stor.length) ∧
      (s.positions = none → (updatePointCloud s p c n).1.positions = none) ∧
      (∀ cs, s.colors = some cs →
        ∃ cs2, (updatePointCloud s p c n).1.colors = some cs2 ∧
          cs2.length = cs.length) ∧
      (s.colors = none → (updatePointCloud s p c n).1.colors = none)) := by
  by_cases hg : s.maxPoints < n
  · have hcl : (copyPositions (List.replicate (n * 3) 0) p n).length = n * 3 := by
      rw [copyPositions_length _ _ _
        (by rw [List.length_replicate]; exact take_length_le p (n * 3)),
        List.length_replicate]
    rcases c with _ | carr
    · rw [updatePointCloud_eval_grow_none s p n hg]
      exact ⟨show n = max s.maxPoints n by omega,
        fun _ => ⟨rfl, ⟨_, rfl, hcl⟩, by simp⟩,
        fun h => absurd hg h⟩
    · rw [updatePointCloud_eval_grow_some s p carr n hg]
      exact ⟨show n = max s.maxPoints n by omega,
        fun _ => ⟨rfl, ⟨_, rfl, hcl⟩,
          fun _ => ⟨rfl, _, rfl, by rw [writeColors_length, List.length_replicate]⟩⟩,
        fun h => absurd hg h⟩
  · have hmax : s.maxPoints = max s.maxPoints n := by omega
    rcases hpos : s.positions with _ | stor
    · rw [updatePointCloud_eval_nopos s p c n hg hpos]
      exact ⟨hmax, fun h => absurd h hg,
        fun _ => ⟨rfl, rfl, rfl,
          fun st hst => Option.noConfusion hst,
          fun _ => hpos,
          fun cs hcs => ⟨cs, hcs, rfl⟩,
          fun h => h⟩⟩
    · by_cases hle : (p.take (n * 3)).length ≤ stor.length
      · have hcl := copyPositions_length stor p n hle
        rcases c with _ | carr
        · rw [updatePointCloud_eval_copy_none s p n stor hg hpos hle]
          exact ⟨hmax, fun h => absurd h hg,
            fun _ => ⟨rfl, rfl, rfl,
              fun st hst => by cases hst; exact ⟨_, rfl, hcl⟩,
              fun h => Option.noConfusion h,
              fun cs hcs => ⟨cs, hcs, rfl⟩,
              fun h => h⟩⟩
        · rcases hcol : s.colors with _ | cstor
          · by_cases h0 : n * 3 = 0
            · by_cases hattr : s.colorAttr = true
              · rw [updatePointCloud_eval_colors_empty_ok s p carr n stor hg hpos hle hcol h0 hattr]
                exact ⟨hmax, fun h => absurd h hg,
                  fun _ => ⟨rfl, rfl, rfl,
                    fun st hst => by cases hst; exact ⟨_, rfl, hcl⟩,
                    fun h => Option.noConfusion h,
                    fun cs hcs => Option.noConfusion hcs,
                    fun _ => hcol⟩⟩
              · have hattr' : s.colorAttr = false := by
                  revert hattr; cases s.colorAttr <;> simp
                rw [updatePointCloud_eval_colors_missing s p carr n stor hg hpos hle hcol
                  (Or.inr hattr')]
                exact ⟨hmax, fun h => absurd h hg,
                  fun _ => ⟨rfl, rfl, rfl,
                    fun st hst => by cases hst; exact ⟨_, rfl, hcl⟩,
                    fun h => Option.noConfusion h,
                    fun cs hcs => Option.noConfusion hcs,
                    fun _ => hcol⟩⟩
            · rw [updatePointCloud_eval_colors_missing s p carr n stor hg hpos hle hcol
                (Or.inl h0)]
              exact ⟨hmax, fun h => absurd h hg,
                fun _ => ⟨rfl, rfl, rfl,
                  fun st hst => by cases hst; exact ⟨_, rfl, hcl⟩,
                  fun h => Option.noConfusion h,
                  fun cs hcs => Option.noConfusion hcs,
                  fun _ => hcol⟩⟩
          · by_cases hattr : s.colorAttr = true
            · rw [updatePointCloud_eval_colors_ok s p carr n stor cstor hg hpos hle hcol hattr]
              exact ⟨hmax, fun h => absurd h hg,
                fun _ => ⟨rfl, rfl, rfl,
                  fun st hst => by cases hst; exact ⟨_, rfl, hcl⟩,
                  fun h => Option.noConfusion h,
                  fun cs hcs => by cases hcs; exact ⟨_, rfl, writeColors_length _ _ _⟩,
                  fun h => Option.noConfusion h⟩⟩
            · have hattr' : s.colorAttr = false := by
                revert hattr; cases s.colorAttr <;> simp
              rw [updatePointCloud_eval_colors_noattr s p carr n stor cstor hg hpos hle hcol hattr']
              exact ⟨hmax, fun h => absurd h hg,
                fun _ => ⟨rfl, rfl, rfl,
                  fun st hst => by cases hst; exact ⟨_, rfl, hcl⟩,
                  fun h => Option.noConfusion h,
                  fun cs hcs => by cases hcs; exact ⟨_, rfl, writeColors_length _ _ _⟩,
                  fun h => Option.noConfusion h⟩⟩
      · rw [updatePointCloud_eval_range s p c n stor hg hpos hle]
        exact ⟨hmax, fun h => absurd h hg,
          fun _ => ⟨rfl, rfl, rfl,
            fun st hst => by cases hst; exact ⟨stor, hpos, rfl⟩,
            fun h => Option.noConfusion h,
            fun cs hcs => ⟨cs, hcs, rfl⟩,
            fun h => h⟩⟩

/-- On a well-formed state the bulk position copy can never overrun: the
clamped source has at most `numPoints * 3` elements and the target has
`maxPoints * 3 ≥ numPoints * 3` of them. -/
theorem copy_never_overruns (s : GBState) (p : List Nat) (n : Nat) (stor : List Nat)
    (hinv : posInv s = true) (hg : ¬ s.maxPoints < n) (hpos : s.positions = some stor) :
    (p.take (n * 3)).length ≤ stor.length := by
  have h := posInv_some s stor hinv hpos
  have := take_length_le p (n * 3)
  omega

/-- Exact characterization of the runs of `updatePointCloud` that finish
without a caught error, from any well-formed state: the call succeeds iff
position storage exists afterwards (this or some earlier frame had
points) and, when the frame carries colors, the capacity grows on this
very frame or the `color` attribute is currently bound. -/
theorem updatePointCloud_ok_iff (s : GBState) (p : List Nat)
    (c : Option (List Nat)) (n : Nat) (hinv : gbInv s = true) :
    (updatePointCloud s p c n).2 = none ↔
      (0 < max s.maxPoints n ∧
        (c.isSome = true → (s.maxPoints < n ∨ s.colorAttr = true))) := by
  have hpi : posInv s = true := ((Bool.and_eq_true _ _).mp hinv).1
  have hci : colorInv s = true := ((Bool.and_eq_true _ _).mp hinv).2
  by_cases hg : s.maxPoints < n
  · rcases c with _ | carr
    · rw [updatePointCloud_eval_grow_none s p n hg]
      exact ⟨fun _ => ⟨by omega, fun hS => Bool.noConfusion hS⟩, fun _ => rfl⟩
    · rw [updatePointCloud_eval_grow_some s p carr n hg]
      exact ⟨fun _ => ⟨by omega, fun _ => Or.inl hg⟩, fun _ => rfl⟩
  · rcases hpos : s.positions with _ | stor
    · have h0 := posInv_none s hpi hpos
      rw [updatePointCloud_eval_nopos s p c n hg hpos]
      exact ⟨fun h => Option.noConfusion h, fun h => by omega⟩
    · have hsome := posInv_some s stor hpi hpos
      have hle := copy_never_overruns s p n stor hpi hg hpos
      rcases c with _ | carr
      · rw [updatePointCloud_eval_copy_none s p n stor hg hpos hle]
        exact ⟨fun _ => ⟨by omega, fun hS => Bool.noConfusion hS⟩, fun _ => rfl⟩
      · rcases hcol : s.colors with _ | cstor
        · have hattr : s.colorAttr = false := by
            by_contra hc
            have hct : s.colorAttr = true := by
              revert hc; cases s.colorAttr <;> simp
            obtain ⟨cs, hcs, _⟩ := colorInv_attr s hci hct
            rw [hcol] at hcs
            exact Option.noConfusion hcs
          rw [updatePointCloud_eval_colors_missing s p carr n stor hg hpos hle hcol
            (Or.inr hattr)]
          refine ⟨fun h => Option.noConfusion h, fun h => ?_⟩
          rcases (h.2 rfl) with h3 | h3
          · exact absurd h3 hg
          · rw [hattr] at h3
            exact Bool.noConfusion h3
        · by_cases hattr : s.colorAttr = true
          · rw [updatePointCloud_eval_colors_ok s p carr n stor cstor hg hpos hle hcol hattr]
            exact ⟨fun _ => ⟨by omega, fun _ => Or.inr hattr⟩, fun _ => rfl⟩
          · have hattr' : s.colorAttr = false := by
              revert hattr; cases s.colorAttr <;> simp
            rw [updatePointCloud_eval_colors_noattr s p carr n stor cstor hg hpos hle hcol hattr']
            refine ⟨fun h => Option.noConfusion h, fun h => ?_⟩
            rcases (h.2 rfl) with h3 | h3
            · exact absurd h3 hg
            · rw [hattr'] at h3
              exact Bool.noConfusion h3

/-- The well-formedness invariant is preserved by every call, including
the runs that end in a caught error (partial mutations keep lengths). -/
theorem gbInv_updatePointCloud (s : GBState) (p : List Nat)
    (c : Option (List Nat)) (n : Nat) (hinv : gbInv s = true) :
    gbInv (updatePointCloud s p c n).1 = true := by
  have hpi : posInv s = true := ((Bool.and_eq_true _ _).mp hinv).1
  have hci : colorInv s = true := ((Bool.and_eq_true _ _).mp hinv).2
  by_cases hg : s.maxPoints < n
  · have hcl : (copyPositions (List.replicate (n * 3) 0) p n).length = n * 3 := by
      rw [copyPositions_length _ _ _
        (by rw [List.length_replicate]; exact take_length_le p (n * 3)),
        List.length_replicate]
    rcases c with _ | carr
    · rw [updatePointCloud_eval_grow_none s p n hg]
      rw [gbInv, posInv, colorInv]
      simp [hcl]
      omega
    · rw [updatePointCloud_eval_grow_some s p carr n hg]
      rw [gbInv, posInv, colorInv]
      simp [hcl, writeColors_length]
      omega
  · rcases hpos : s.positions with _ | stor
    · rw [updatePointCloud_eval_nopos s p c n hg hpos]
      exact hinv
    · have hsome := posInv_some s stor hpi hpos
      have hle := copy_never_overruns s p n stor hpi hg hpos
      have hcl := copyPositions_length stor p n hle
      have hpi2 : ∀ t : GBState, t.maxPoints = s.maxPoints →
          t.positions = some (copyPositions stor p n) → posInv t = true := by
        intro t hm hp2
        rw [posInv, hp2]
        simp [hcl, hsome.1, hm]
        omega
      rcases c with _ | carr
      · rw [updatePointCloud_eval_copy_none s p n stor hg hpos hle]
        rw [gbInv, Bool.and_eq_true]
        refine ⟨hpi2 _ rfl rfl, ?_⟩
        rw [colorInv] at hci ⊢
        exact hci
      · rcases hcol : s.colors with _ | cstor
        · have hattr : s.colorAttr = false := by
            by_contra hc
            have hct : s.colorAttr = true := by
              revert hc; cases s.colorAttr <;> simp
            obtain ⟨cs, hcs, _⟩ := colorInv_attr s hci hct
            rw [hcol] at hcs
            exact Option.noConfusion hcs
          rw [updatePointCloud_eval_colors_missing s p carr n stor hg hpos hle hcol
            (Or.inr hattr)]
          rw [gbInv, Bool.and_eq_true]
          refine ⟨hpi2 _ rfl rfl, ?_⟩
          rw [colorInv]
          simp [hattr]
        · by_cases hattr : s.colorAttr = true
          · rw [updatePointCloud_eval_colors_ok s p carr n stor cstor hg hpos hle hcol hattr]
            rw [gbInv, Bool.and_eq_true]
            refine ⟨hpi2 _ rfl rfl, ?_⟩
            obtain ⟨cs, hcs, hlen⟩ := colorInv_attr s hci hattr
            rw [hcol] at hcs
            cases hcs
            rw [colorInv]
            simp [writeColors_length, hlen]
          · have hattr' : s.colorAttr = false := by
              revert hattr; cases s.colorAttr <;> simp
            rw [updatePointCloud_eval_colors_noattr s p carr n stor cstor hg hpos hle hcol hattr']
            rw [gbInv, Bool.and_eq_true]
            refine ⟨hpi2 _ rfl rfl, ?_⟩
            rw [colorInv]
            simp [hattr']

/-- The initial viewer state is well-formed. -/
theorem gbInv_initGB : gbInv initGB = true := rfl

/-- Any run that finishes without error has copied the frame's positions
verbatim into the head of the (possibly fresh) position storage and set
the draw range to the frame's point count. -/
theorem updatePointCloud_readback (s : GBState) (p : List Nat)
    (c : Option (List Nat)) (n : Nat)
    (hp : p.length = n * 3)
    (hok : (updatePointCloud s p c n).2 = none) :
    ∃ stor, (updatePointCloud s p c n).1.positions = some stor ∧
      stor.take (n * 3) = p ∧
      (updatePointCloud s p c n).1.drawRange = some n := by
  by_cases hg : s.maxPoints < n
  · rcases c with _ | carr
    · rw [updatePointCloud_eval_grow_none s p n hg]
      exact ⟨_, rfl, copyPositions_take _ p n hp, rfl⟩
    · rw [updatePointCloud_eval_grow_some s p carr n hg]
      exact ⟨_, rfl, copyPositions_take _ p n hp, rfl⟩
  · rcases hpos : s.positions with _ | stor
    · rw [updatePointCloud_eval_nopos s p c n hg hpos] at hok
      exact Option.noConfusion hok
    · by_cases hle : (p.take (n * 3)).length ≤ stor.length
      · rcases c with _ | carr
        · rw [updatePointCloud_eval_copy_none s p n stor hg hpos hle]
          exact ⟨_, rfl, copyPositions_take _ p n hp, rfl⟩
        · rcases hcol : s.colors with _ | cstor
          · by_cases h0 : n * 3 = 0
            · by_cases hattr : s.colorAttr = true
              · rw [updatePointCloud_eval_colors_empty_ok s p carr n stor hg hpos hle hcol
                  h0 hattr]
                exact ⟨_, rfl, copyPositions_take _ p n hp, rfl⟩
              · have hattr' : s.colorAttr = false := by
                  revert hattr; cases s.colorAttr <;> simp
                rw [updatePointCloud_eval_colors_missing s p carr n stor hg hpos hle hcol
                  (Or.inr hattr')] at hok
                exact Option.noConfusion hok
            · rw [updatePointCloud_eval_colors_missing s p carr n stor hg hpos hle hcol
                (Or.inl h0)] at hok
              exact Option.noConfusion hok
          · by_cases hattr : s.colorAttr = true
            · rw [updatePointCloud_eval_colors_ok s p carr n stor cstor hg hpos hle hcol hattr]
              exact ⟨_, rfl, copyPositions_take _ p n hp, rfl⟩
            · have hattr' : s.colorAttr = false := by
                revert hattr; cases s.colorAttr <;> simp
              rw [updatePointCloud_eval_colors_noattr s p carr n stor cstor hg hpos hle hcol
                hattr'] at hok
              exact Option.noConfusion hok
      · rw [updatePointCloud_eval_range s p c n stor hg hpos hle] at hok
        exact Option.noConfusion hok

/-- On a colorless frame the manager never touches color state: the color
storage is exactly the previous one (no deallocation, no update); the
colors-disabled signal (attribute removal and `vertexColors := false`)
happens exactly when the frame grows the capacity, and otherwise the
previous attribute binding and flag survive unchanged. -/
theorem updatePointCloud_colorless (s : GBState) (p : List Nat) (n : Nat) :
    ((updatePointCloud s p none n).1.colors = s.colors) ∧
    ((updatePointCloud s p none n).1.colorAllocs = s.colorAllocs) ∧
    (s.maxPoints < n →
      (updatePointCloud s p none n).1.colorAttr = false ∧
      (updatePointCloud s p none n).1.vertexColors = false) ∧
    (¬ s.maxPoints < n →
      (updatePointCloud s p none n).1.colorAttr = s.colorAttr ∧
      (updatePointCloud s p none n).1.vertexColors = s.vertexColors) := by
  by_cases hg : s.maxPoints < n
  · rw [updatePointCloud_eval_grow_none s p n hg]
    exact ⟨rfl, rfl, fun _ => ⟨rfl, rfl⟩, fun h => absurd hg h⟩
  · rcases hpos : s.positions with _ | stor
    · rw [updatePointCloud_eval_nopos s p none n hg hpos]
      exact ⟨rfl, rfl, fun h => absurd h hg, fun _ => ⟨rfl, rfl⟩⟩
    · by_cases hle : (p.take (n * 3)).length ≤ stor.length
      · rw [updatePointCloud_eval_copy_none s p n stor hg hpos hle]
        exact ⟨rfl, rfl, fun h => absurd h hg, fun _ => ⟨rfl, rfl⟩⟩
      · rw [updatePointCloud_eval_range s p none n stor hg hpos hle]
        exact ⟨rfl, rfl, fun h => absurd h hg, fun _ => ⟨rfl, rfl⟩⟩

/-- Any errorless run on a colored frame leaves color storage whose first
`numPoints * 3` entries are exactly the frame's color bytes divided by
255. -/
theorem updatePointCloud_colors_written (s : GBState) (p carr : List Nat) (n : Nat)
    (hinv : gbInv s = true)
    (hok : (updatePointCloud s p (some carr) n).2 = none) :
    ∃ cs, (updatePointCloud s p (some carr) n).1.colors = some cs ∧
      n * 3 ≤ cs.length ∧
      ∀ i < n * 3, cs[i]? = some ((carr.getD i 0 : ℚ) / 255) := by
  have hpi : posInv s = true := ((Bool.and_eq_true _ _).mp hinv).1
  have hci : colorInv s = true := ((Bool.and_eq_true _ _).mp hinv).2
  by_cases hg : s.maxPoints < n
  · rw [updatePointCloud_eval_grow_some s p carr n hg]
    refine ⟨_, rfl, by rw [writeColors_length, List.length_replicate], ?_⟩
    intro i hi
    exact writeColors_getElem _ carr (n * 3) i hi (by rw [List.length_replicate]; exact hi)
  · rcases hpos : s.positions with _ | stor
    · rw [updatePointCloud_eval_nopos s p (some carr) n hg hpos] at hok
      exact Option.noConfusion hok
    · have hsome := posInv_some s stor hpi hpos
      have hle := copy_never_overruns s p n stor hpi hg hpos
      rcases hcol : s.colors with _ | cstor
      · have hattr : s.colorAttr = false := by
          by_contra hc
          have hct : s.colorAttr = true := by
            revert hc; cases s.colorAttr <;> simp
          obtain ⟨cs, hcs, _⟩ := colorInv_attr s hci hct
          rw [hcol] at hcs
          exact Option.noConfusion hcs
        rw [updatePointCloud_eval_colors_missing s p carr n stor hg hpos hle hcol
          (Or.inr hattr)] at hok
        exact Option.noConfusion hok
      · by_cases hattr : s.colorAttr = true
        · obtain ⟨cs, hcs, hlen⟩ := colorInv_attr s hci hattr
          rw [hcol] at hcs
          cases hcs
          have hbig : n * 3 ≤ cstor.length := by
            rw [hlen]
            omega
          rw [updatePointCloud_eval_colors_ok s p carr n stor cstor hg hpos hle hcol hattr]
          refine ⟨_, rfl, by rw [writeColors_length]; exact hbig, ?_⟩
          intro i hi
          exact writeColors_getElem cstor carr (n * 3) i hi (by omega)
        · have hattr' : s.colorAttr = false := by
            revert hattr; cases s.colorAttr <;> simp
          rw [updatePointCloud_eval_colors_noattr s p carr n stor cstor hg hpos hle hcol
            hattr'] at hok
          exact Option.noConfusion hok

/-- A message arriving while the gate is busy changes nothing but the
skip counter: same buffers, no pipeline entry, flag still set. -/
theorem handleWebSocketMessage_busy (inflate : List Nat → Option (List Nat))
    (s : StreamState) (data : List Nat) (h : s.processing = true) :
    handleWebSocketMessage inflate s data =
      { s with droppedCount := s.droppedCount + 1 } := by
  rw [handleWebSocketMessage, if_pos h]

/-- A message arriving while the gate is idle is admitted into the
pipeline (exactly one entry) and the gate is idle again when the call
returns, on the success path and on every failure path alike. -/
theorem handleWebSocketMessage_idle (inflate : List Nat → Option (List Nat))
    (s : StreamState) (data : List Nat) (h : s.processing = false) :
    (handleWebSocketMessage inflate s data).processing = false ∧
    (handleWebSocketMessage inflate s data).pipelineRuns = s.pipelineRuns + 1 := by
  rw [handleWebSocketMessage, if_neg (by rw [h]; exact Bool.false_ne_true)]
  rcases inflate data with _ | raw
  · exact ⟨rfl, rfl⟩
  · rw [afterInflate]
    rcases parsePointCloudData raw with _ | f
    · exact ⟨rfl, rfl⟩
    · exact ⟨rfl, rfl⟩

theorem keyLE_trans (a b c : JsNum) (h1 : keyLE a b = true) (h2 : keyLE b c = true) :
    keyLE a c = true := by
  cases a <;> cases b <;> cases c <;> (simp [keyLE] at *; try omega)

theorem keyLE_flip (a b : JsNum) (h : keyLE a b = false) : keyLE b a = true := by
  cases a <;> cases b <;> (simp [keyLE] at *; try omega)

theorem keyLE_false_ne (a b : JsNum) (h : keyLE a b = false) : ¬ b = a := by
  cases a <;> cases b <;> (simp [keyLE] at *; try omega)

theorem insertFrame_perm (x : String) (l : List String) :
    (insertFrame x l).Perm (x :: l) := by
  induction l with
  | nil => exact List.Perm.refl _
  | cons y ys ih =>
    rw [insertFrame]
    by_cases h : keyLE (keyOf x) (keyOf y) = true
    · rw [if_pos h]
    · rw [if_neg h]
      exact ((ih.cons y).trans (List.Perm.swap x y ys))

theorem sortByNumKey_perm (l : List String) : (sortByNumKey l).Perm l := by
  induction l with
  | nil => exact List.Perm.refl _
  | cons x xs ih =>
    rw [sortByNumKey]
    exact (insertFrame_perm x (sortByNumKey xs)).trans (ih.cons x)

theorem mem_insertFrame (z x : String) (l : List String) :
    z ∈ insertFrame x l ↔ z = x ∨ z ∈ l := by
  rw [(insertFrame_perm x l).mem_iff]
  simp

theorem insertFrame_pairwise (x : String) (l : List String)
    (h : l.Pairwise (fun a b => keyLE (keyOf a) (keyOf b) = true)) :
    (insertFrame x l).Pairwise (fun a b => keyLE (keyOf a) (keyOf b) = true) := by
  induction l with
  | nil => simp [insertFrame]
  | cons y ys ih =>
    rw [insertFrame]
    rcases List.pairwise_cons.mp h with ⟨hy, hys⟩
    by_cases hxy : keyLE (keyOf x) (keyOf y) = true
    · rw [if_pos hxy]
      refine List.pairwise_cons.mpr ⟨?_, h⟩
      intro z hz
      rcases List.mem_cons.mp hz with rfl | hz
      · exact hxy
      · exact keyLE_trans _ _ _ hxy (hy z hz)
    · rw [if_neg hxy]
      have hxy' : keyLE (keyOf x) (keyOf y) = false := by
        revert hxy; cases keyLE (keyOf x) (keyOf y) <;> simp
      refine List.pairwise_cons.mpr ⟨?_, ih hys⟩
      intro z hz
      rcases (mem_insertFrame z x ys).mp hz with rfl | hz
      · exact keyLE_flip _ _ hxy'
      · exact hy z hz

theorem sortByNumKey_pairwise (l : List String) :
    (sortByNumKey l).Pairwise (fun a b => keyLE (keyOf a) (keyOf b) = true) := by
  induction l with
  | nil => simp [sortByNumKey]
  | cons x xs ih => exact insertFrame_pairwise x (sortByNumKey xs) ih

theorem insertFrame_filter (k : JsNum) (x : String) (l : List String) :
    (insertFrame x l).filter (fun nm => keyOf nm == k) =
      if keyOf x == k then x :: l.filter (fun nm => keyOf nm == k)
      else l.filter (fun nm => keyOf nm == k) := by
  induction l with
  | nil =>
    rw [insertFrame]
    by_cases hx : keyOf x == k
    · rw [if_pos hx]
      simp [List.filter, hx]
    · have hfalse : (keyOf x == k) = false := by
        revert hx; cases keyOf x == k <;> simp
      rw [if_neg (by rw [hfalse]; exact Bool.false_ne_true)]
      simp [List.filter, hfalse]
  | cons y ys ih =>
    rw [insertFrame]
    by_cases hxy : keyLE (keyOf x) (keyOf y) = true
    · rw [if_pos hxy]
      by_cases hx : keyOf x = k
      · rw [if_pos (by simp [hx])]
        simp [List.filter_cons, hx]
      · rw [if_neg (by simp [hx])]
        simp [List.filter_cons, hx]
    · rw [if_neg hxy]
      have hxy' : keyLE (keyOf x) (keyOf y) = false := by
        revert hxy; cases keyLE (keyOf x) (keyOf y) <;> simp
      by_cases hx : keyOf x = k
      · have hy : ¬ (keyOf y = k) := by
          rw [← hx]
          exact keyLE_false_ne _ _ hxy'
        rw [if_pos (by simp [hx])]
        rw [List.filter_cons, List.filter_cons]
        simp only [ih, if_pos (show (keyOf x == k) = true by simp [hx])]
        simp [hy]
      · rw [if_neg (by simp [hx])]
        rw [List.filter_cons, List.filter_cons]
        simp only [ih, if_neg (show ¬ (keyOf x == k) = true by simp [hx])]

theorem sortByNumKey_stable (l : List String) (k : JsNum) :
    (sortByNumKey l).filter (fun nm => keyOf nm == k) =
      l.filter (fun nm => keyOf nm == k) := by
  induction l with
  | nil => rfl
  | cons x xs ih =>
    rw [sortByNumKey, insertFrame_filter, List.filter_cons]
    by_cases hx : keyOf x = k
    · rw [if_pos (by simp [hx]), if_pos (by simp [hx]), ih]
    · rw [if_neg (by simp [hx]), if_neg (by simp [hx]), ih]

/-- A frame whose header declares zero points decodes without reading any
further bytes: the payload part of the layout is empty. -/
theorem parse_zero (b : List Nat) (hc : Nat)
    (hn : readU32LE b 0 = some 0) (hhc : readU8 b 4 = some hc) :
    parsePointCloudData b =
      if hc ≠ 0 then some ⟨0, true, [], some []⟩
      else some ⟨0, false, [], none⟩ := by
  rw [parsePointCloudData, hn, hhc]
  rfl

/-- C1: the geometry buffer capacity tracks the high-water mark.  A frame
strictly larger than `maxPoints` reallocates position storage (and color
storage when the frame has colors) to exactly `numPoints * 3`; any other
frame reallocates nothing and preserves the capacity; the capacity never
shrinks. -/
theorem C1_capacity_high_water (s : GBState) (p : List Nat)
    (c : Option (List Nat)) (n : Nat) :
    (s.maxPoints ≤ (updatePointCloud s p c n).1.maxPoints) ∧
    ((updatePointCloud s p c n).1.maxPoints = max s.maxPoints n) ∧
    (s.maxPoints < n →
      (updatePointCloud s p c n).1.posAllocs = s.posAllocs + 1 ∧
      (∃ stor, (updatePointCloud s p c n).1.positions = some stor ∧
        stor.length = n * 3) ∧
      (c.isSome = true →
        (updatePointCloud s p c n).1.colorAllocs = s.colorAllocs + 1 ∧
        ∃ cs, (updatePointCloud s p c n).1.colors = some cs ∧
          cs.length = n * 3)) ∧
    (¬ s.maxPoints < n →
      (updatePointCloud s p c n).1.maxPoints = s.maxPoints ∧
      (updatePointCloud s p c n).1.posAllocs = s.posAllocs ∧
      (updatePointCloud s p c n).1.colorAllocs = s.colorAllocs ∧
      (∀ stor, s.positions = some stor →
        ∃ stor2, (updatePointCloud s p c n).1.positions = some stor2 ∧
          stor2.length = stor.length) ∧
      (s.positions = none → (updatePointCloud s p c n).1.positions = none) ∧
      (∀ cs, s.colors = some cs →
        ∃ cs2, (updatePointCloud s p c n).1.colors = some cs2 ∧
          cs2.length = cs.length) ∧
      (s.colors = none → (updatePointCloud s p c n).1.colors = none)) := by
  have h := updatePointCloud_capacity s p c n
  exact ⟨by rw [h.1]; omega, h.1, h.2.1, h.2.2⟩

/-- Witness for C1 at a concrete growing colored frame. -/
theorem C1_witness :
    (updatePointCloud initGB [1, 2, 3] (some [4, 5, 6]) 1).1.maxPoints =
      max initGB.maxPoints 1 ∧
    (updatePointCloud initGB [1, 2, 3] (some [4, 5, 6]) 1).1.posAllocs =
      initGB.posAllocs + 1 := by
  have h := C1_capacity_high_water initGB [1, 2, 3] (some [4, 5, 6]) 1
  exact ⟨h.2.1, (h.2.2.1 (by decide)).1⟩

/-- C2: with the header in reach, decode succeeds exactly when the buffer
is at least `5 + 12 * numPoints` bytes plus `3 * numPoints` when the
color flag is set; a shorter buffer fails (the `DataView` `RangeError`,
reported as the caught decode error) and a successful decode is never
truncated: it always returns the full `numPoints * 3` positions. -/
theorem C2_truncation_check (b : List Nat) (n hc : Nat)
    (hn : readU32LE b 0 = some n) (hhc : readU8 b 4 = some hc) :
    ((parsePointCloudData b).isSome = true ↔
      5 + 12 * n + (if hc ≠ 0 then 3 * n else 0) ≤ b.length) ∧
    (∀ f, parsePointCloudData b = some f →
      f.numPoints = n ∧ f.positions.length = n * 3) := by
  refine ⟨parse_isSome_iff b n hc hn hhc, ?_⟩
  intro f hf
  obtain ⟨h1, h2, _, _⟩ := parse_shape b f hf
  rw [hn] at h1
  have hn2 : n = f.numPoints := Option.some.inj h1
  refine ⟨hn2.symm, ?_⟩
  rw [← hn2] at h2
  exact h2

/-- Witness for C2: a buffer that declares one point but carries no
payload decodes to nothing. -/
theorem C2_witness : parsePointCloudData [1, 0, 0, 0, 0] = none := by
  have h := (C2_truncation_check [1, 0, 0, 0, 0] 1 0 (by decide) (by decide)).1
  rcases hp : parsePointCloudData [1, 0, 0, 0, 0] with _ | f
  · rfl
  · exact absurd (h.mp (by rw [hp]; rfl)) (by decide)

/-- C3: the admission controller keeps at most one frame in flight.  A
message arriving while `isProcessing` is set is dropped without entering
the decompress/decode pipeline and without touching the buffers; a
message arriving while idle enters the pipeline exactly once and the flag
is clear again when the synchronous pipeline returns, whether
decompression failed, decoding failed, ingest erred or everything
succeeded. -/
theorem C3_single_frame_in_flight (inflate : List Nat → Option (List Nat))
    (s : StreamState) (data : List Nat) :
    (s.processing = true →
      handleWebSocketMessage inflate s data =
        { s with droppedCount := s.droppedCount + 1 }) ∧
    (s.processing = false →
      (handleWebSocketMessage inflate s data).processing = false ∧
      (handleWebSocketMessage inflate s data).pipelineRuns = s.pipelineRuns + 1) :=
  ⟨fun h => handleWebSocketMessage_busy inflate s data h,
   fun h => handleWebSocketMessage_idle inflate s data h⟩

/-- Witness for C3 at a busy gate and at an idle gate with a failing
decompressor. -/
theorem C3_witness :
    handleWebSocketMessage (fun _ => none) { initStream with processing := true } [] =
      { initStream with processing := true,
                        droppedCount := initStream.droppedCount + 1 } ∧
    (handleWebSocketMessage (fun _ => none) initStream []).processing = false := by
  refine ⟨?_, ?_⟩
  · exact (C3_single_frame_in_flight (fun _ => none)
      { initStream with processing := true } []).1 rfl
  · exact ((C3_single_frame_in_flight (fun _ => none) initStream []).2 rfl).1

/-- C4 counterexample: a well-formed colored frame (positions and colors
of length `numPoints * 3`) ingested after a same-sized colorless frame
makes `updatePointCloud` throw (`colors` storage was never allocated
because allocation only happens in the growth branch), refuting "ingest
never raises on well-formed DecodedFrame input". -/
theorem C4_counterexample :
    ([0, 0, 0] : List Nat).length = 1 * 3 ∧
    ([1, 2, 3] : List Nat).length = 1 * 3 ∧
    (updatePointCloud (updatePointCloud initGB [0, 0, 0] none 1).1
      [0, 0, 0] (some [1, 2, 3]) 1).2 = some JsErr.typeError := by decide

/-- C4 (amended): from any reachable (well-formed) state, ingest finishes
without an error exactly when position storage exists after the capacity
step (the current or some earlier frame had points) and, if the frame has
colors, the capacity grows on this frame or the color attribute is
currently bound; the well-formedness invariant holds initially and is
preserved by every call. -/
theorem C4_ingest_ok_characterization :
    gbInv initGB = true ∧
    (∀ s p c n, gbInv s = true → gbInv (updatePointCloud s p c n).1 = true) ∧
    (∀ s p c n, gbInv s = true →
      ((updatePointCloud s p c n).2 = none ↔
        (0 < max s.maxPoints n ∧
          (c.isSome = true → (s.maxPoints < n ∨ s.colorAttr = true))))) :=
  ⟨gbInv_initGB,
   fun s p c n h => gbInv_updatePointCloud s p c n h,
   fun s p c n h => updatePointCloud_ok_iff s p c n h⟩

/-- Witness for C4 at a concrete first colorless frame. -/
theorem C4_witness : (updatePointCloud initGB [7, 8, 9] none 1).2 = none := by
  have h := C4_ingest_ok_characterization.2.2 initGB [7, 8, 9] none 1 (by decide)
  exact h.mpr ⟨by decide, by decide⟩

/-- C5 counterexample: ingesting a well-formed one-point colored frame
after a two-point colorless frame throws midway, so the draw range stays
at the previous frame's 2 instead of becoming the new frame's 1 -
"afterwards activePoints equals f.pointCount" fails as an unconditional
statement. -/
theorem C5_counterexample :
    ([9, 9, 9] : List Nat).length = 1 * 3 ∧
    ([1, 2, 3] : List Nat).length = 1 * 3 ∧
    (updatePointCloud (updatePointCloud initGB [7, 7, 7, 7, 7, 7] none 2).1
      [9, 9, 9] (some [1, 2, 3]) 1).1.drawRange = some 2 ∧
    (updatePointCloud (updatePointCloud initGB [7, 7, 7, 7, 7, 7] none 2).1
      [9, 9, 9] (some [1, 2, 3]) 1).1.drawRange ≠ some 1 := by decide

/-- C5 (amended): every ingest that completes without an error leaves the
frame's position values verbatim (bit-exact) in the first
`pointCount * 3` entries of the position storage and sets the draw range
to exactly `pointCount`. -/
theorem C5_readback_on_success (s : GBState) (p : List Nat)
    (c : Option (List Nat)) (n : Nat) (hp : p.length = n * 3)
    (hok : (updatePointCloud s p c n).2 = none) :
    ∃ stor, (updatePointCloud s p c n).1.positions = some stor ∧
      stor.take (n * 3) = p ∧
      (updatePointCloud s p c n).1.drawRange = some n :=
  updatePointCloud_readback s p c n hp hok

/-- Witness for C5 at a concrete first frame. -/
theorem C5_witness :
    ∃ stor, (updatePointCloud initGB [5, 6, 7] none 1).1.positions = some stor ∧
      stor.take (1 * 3) = [5, 6, 7] ∧
      (updatePointCloud initGB [5, 6, 7] none 1).1.drawRange = some 1 :=
  C5_readback_on_success initGB [5, 6, 7] none 1 (by decide) (by decide)

/-- C6 counterexample: a colorless frame that does not grow the capacity
signals nothing - the color attribute stays bound and `vertexColors`
stays raised (the renderer keeps drawing the stale colors), refuting
"signals colors disabled so the renderer drops the color attribute". -/
theorem C6_counterexample :
    (updatePointCloud (updatePointCloud initGB [0, 0, 0] (some [10, 20, 30]) 1).1
      [0, 0, 0] none 1).1.colorAttr = true ∧
    (updatePointCloud (updatePointCloud initGB [0, 0, 0] (some [10, 20, 30]) 1).1
      [0, 0, 0] none 1).1.vertexColors = true ∧
    (updatePointCloud (updatePointCloud initGB [0, 0, 0] (some [10, 20, 30]) 1).1
      [0, 0, 0] none 1).1.colors =
      (updatePointCloud initGB [0, 0, 0] (some [10, 20, 30]) 1).1.colors :=
  ⟨rfl, rfl, rfl⟩

/-- C6 (amended): a colorless frame never deallocates or modifies the
color storage and never reallocates it; the colors-disabled signal
(attribute removal and `vertexColors := false`) is issued exactly when
the colorless frame grows the capacity, and otherwise the previous
attribute binding and flag are left untouched. -/
theorem C6_colorless_frame_effect (s : GBState) (p : List Nat) (n : Nat) :
    ((updatePointCloud s p none n).1.colors = s.colors) ∧
    ((updatePointCloud s p none n).1.colorAllocs = s.colorAllocs) ∧
    (s.maxPoints < n →
      (updatePointCloud s p none n).1.colorAttr = false ∧
      (updatePointCloud s p none n).1.vertexColors = false) ∧
    (¬ s.maxPoints < n →
      (updatePointCloud s p none n).1.colorAttr = s.colorAttr ∧
      (updatePointCloud s p none n).1.vertexColors = s.vertexColors) :=
  updatePointCloud_colorless s p n

/-- Witness for C6 at a concrete growing colorless frame. -/
theorem C6_witness :
    (updatePointCloud initGB [0, 0, 0] none 1).1.colors = initGB.colors ∧
    (updatePointCloud initGB [0, 0, 0] none 1).1.colorAttr = false := by
  have h := C6_colorless_frame_effect initGB [0, 0, 0] 1
  exact ⟨h.1, (h.2.2.1 (by decide)).1⟩

/-- C7 counterexample: a zero-point frame decodes to an empty position
sequence, but ingesting it as the very first frame throws (`positions`
is still `undefined` because the growth branch requires
`maxPoints < numPoints`), refuting "accepted without error ... including
when it is the very first frame received". -/
theorem C7_counterexample :
    parsePointCloudData [0, 0, 0, 0, 0] = some ⟨0, false, [], none⟩ ∧
    (updatePointCloud initGB [] none 0).2 = some JsErr.typeError := by decide

/-- C7 (amended): a frame declaring zero points always decodes to an
empty position sequence; ingesting the empty frame succeeds in every
well-formed state in which position storage already exists (some earlier
frame had points) and, if the empty frame declares colors, the color
attribute is bound - but not as the very first frame. -/
theorem C7_zero_frame :
    (∀ b hc, readU32LE b 0 = some 0 → readU8 b 4 = some hc →
      ∃ f, parsePointCloudData b = some f ∧ f.numPoints = 0 ∧ f.positions = []) ∧
    (∀ s c, gbInv s = true → 0 < s.maxPoints →
      (c = none ∨ s.colorAttr = true) →
      (updatePointCloud s [] c 0).2 = none) := by
  constructor
  · intro b hc hn hhc
    by_cases h0 : hc = 0
    · subst h0
      rw [parse_zero b 0 hn hhc]
      exact ⟨⟨0, false, [], none⟩, rfl, rfl, rfl⟩
    · rw [parse_zero b hc hn hhc, if_pos h0]
      exact ⟨⟨0, true, [], some []⟩, rfl, rfl, rfl⟩
  · intro s c hinv hpos hc
    refine (updatePointCloud_ok_iff s [] c 0 hinv).mpr ⟨by omega, fun hS => ?_⟩
    rcases hc with rfl | hattr
    · exact Bool.noConfusion hS
    · exact Or.inr hattr

/-- Witness for C7: the concrete 5-byte zero frame, and an empty frame
accepted after a one-point frame. -/
theorem C7_witness :
    (∃ f, parsePointCloudData [0, 0, 0, 0, 0] = some f ∧
      f.numPoints = 0 ∧ f.positions = []) ∧
    (updatePointCloud (updatePointCloud initGB [1, 1, 1] none 1).1
      [] none 0).2 = none := by
  refine ⟨C7_zero_frame.1 [0, 0, 0, 0, 0] 0 (by decide) (by decide), ?_⟩
  exact C7_zero_frame.2 (updatePointCloud initGB [1, 1, 1] none 1).1 none
    (by decide) (by decide) (Or.inl rfl)

/-- C8: the codec hands color bytes through unnormalized - the decoded
color array is byte-for-byte the wire bytes at offset
`5 + 12 * numPoints` - and the buffer manager performs the one and only
normalization at copy-in, storing exactly `c / 255` for every decoded
color byte `c` (the f32 rounding of the stored quotient is abstracted by
exact rationals). -/
theorem C8_color_normalization :
    (∀ b f cs, parsePointCloudData b = some f → f.colors = some cs →
      cs.length = f.numPoints * 3 ∧
      ∀ i < f.numPoints * 3, cs[i]? = b[5 + 4 * (f.numPoints * 3) + i]?) ∧
    (∀ s p carr n, gbInv s = true →
      (updatePointCloud s p (some carr) n).2 = none →
      ∃ csq, (updatePointCloud s p (some carr) n).1.colors = some csq ∧
        n * 3 ≤ csq.length ∧
        ∀ i < n * 3, csq[i]? = some ((carr.getD i 0 : ℚ) / 255)) := by
  constructor
  · intro b f cs hf hcs
    rw [parsePointCloudData] at hf
    rcases hn : readU32LE b 0 with _ | n <;> rw [hn] at hf <;> try simp at hf
    rcases hhc : readU8 b 4 with _ | hc <;> rw [hhc] at hf <;> try simp at hf
    rcases hps : readF32s b 5 (n * 3) with _ | ps <;> rw [hps] at hf <;> try simp at hf
    by_cases h0 : hc = 0
    · rw [if_pos h0] at hf
      obtain rfl : (⟨n, false, ps, none⟩ : DecodedFrame) = f := Option.some.inj hf
      exact Option.noConfusion hcs
    · rw [if_neg h0] at hf
      rcases hcs0 : readU8s b (5 + 4 * (n * 3)) (n * 3) with _ | cs0 <;>
        rw [hcs0] at hf <;> try simp at hf
      obtain rfl : (⟨n, true, ps, some cs0⟩ : DecodedFrame) = f := hf
      obtain rfl : cs0 = cs := Option.some.inj hcs
      refine ⟨readU8s_length b _ _ _ hcs0, ?_⟩
      intro i hi
      exact readU8s_getElem b (n * 3) (5 + 4 * (n * 3)) cs0 hcs0 i hi
  · intro s p carr n hinv hok
    exact updatePointCloud_colors_written s p carr n hinv hok

/-- Witness for C8 at a concrete one-point colored frame: the wire byte
51 comes out of the codec as 51 and is stored as 51 / 255. -/
theorem C8_witness :
    (([51, 102, 255] : List Nat)[0]? =
      ([1, 0, 0, 0, 1, 0, 0, 0, 0, 0, 0, 0, 0, 0, 0, 0, 0, 51, 102, 255] :
        List Nat)[17]?) ∧
    (∃ csq,
      (updatePointCloud initGB [0, 0, 0] (some [51, 102, 255]) 1).1.colors =
        some csq ∧
      1 * 3 ≤ csq.length ∧
      ∀ i < 1 * 3, csq[i]? =
        some ((([51, 102, 255] : List Nat).getD i 0 : ℚ) / 255)) := by
  constructor
  · exact (C8_color_normalization.1
      [1, 0, 0, 0, 1, 0, 0, 0, 0, 0, 0, 0, 0, 0, 0, 0, 0, 51, 102, 255]
      ⟨1, true, [0, 0, 0], some [51, 102, 255]⟩ [51, 102, 255]
      (by decide) rfl).2 0 (by decide)
  · exact C8_color_normalization.2 initGB [0, 0, 0] [51, 102, 255] 1
      (by decide) (by decide)

/-- C9 counterexample: two names whose numeric substrings are the
seventeen-digit values 10^16 + 1 and 10^16 - distinct, and not in
ascending order in the input - are left in input order by the sort:
`parseInt` rounds both runs to the float64 1e16, the comparator returns
0, and the stable sort keeps them put.  The output is therefore not
ascending by the (exact) numeric substring. -/
theorem C9_counterexample :
    (firstNumRun "b10000000000000001").map digitsVal = some (10 ^ 16 + 1) ∧
    (firstNumRun "a10000000000000000").map digitsVal = some (10 ^ 16) ∧
    sortFrameNames ["b10000000000000001", "a10000000000000000"] =
      some ["b10000000000000001", "a10000000000000000"] := by decide

/-- C9 (amended): the frame sequencer orders archive names ascending by
the float64 value `parseInt` gives the first digit run (ties - including
distinct runs of seventeen or more digits that round to the same double -
broken by original order): on any list of names that all contain a digit
the sort returns a permutation ordered by the float64 key and stable on
equal keys; whenever a run's exact value is below `2 ^ 53` (in particular
for every run of at most fifteen digits) the float64 key IS the exact
numeric-substring value; and the concrete input
["frame10", "frame2", "frame1"] sorts to
["frame1", "frame2", "frame10"]. -/
theorem C9_numeric_sort :
    sortFrameNames ["frame10", "frame2", "frame1"] =
      some ["frame1", "frame2", "frame10"] ∧
    (∀ names, (∀ nm ∈ names, (numKey nm).isSome = true) →
      ∃ out, sortFrameNames names = some out ∧
        out.Perm names ∧
        out.Pairwise (fun a b => keyLE (keyOf a) (keyOf b) = true) ∧
        ∀ k, out.filter (fun nm => keyOf nm == k) =
          names.filter (fun nm => keyOf nm == k)) ∧
    (∀ ds, digitsVal ds < 2 ^ 53 → parseIntVal ds = JsNum.finite (digitsVal ds)) := by
  refine ⟨by decide, ?_, ?_⟩
  · intro names hall
    by_cases hlen : names.length ≤ 1
    · refine ⟨names, by rw [sortFrameNames, if_pos hlen], List.Perm.refl _, ?_,
        fun k => rfl⟩
      rcases names with _ | ⟨x, _ | ⟨y, ys⟩⟩
      · simp
      · simp
      · simp at hlen
    · have hall2 : names.all (fun nm => (numKey nm).isSome) = true := by
        rw [List.all_eq_true]
        exact hall
      refine ⟨sortByNumKey names, ?_, sortByNumKey_perm names,
        sortByNumKey_pairwise names, fun k => sortByNumKey_stable names k⟩
      rw [sortFrameNames, if_neg hlen, if_pos hall2]
  · intro ds h
    have hbound : (2 : Nat) ^ 53 < f64OverflowBound := by
      rw [f64OverflowBound, Nat.shiftLeft_eq, Nat.shiftLeft_eq, one_mul, one_mul]
      have h1 : (2 : Nat) ^ 53 < 2 ^ 970 :=
        Nat.pow_lt_pow_right (by omega) (by omega)
      have h2 : (2 : Nat) ^ 971 = 2 ^ 970 + 2 ^ 970 := by
        rw [pow_succ]
        omega
      have h3 : (2 : Nat) ^ 971 ≤ 2 ^ 1024 :=
        Nat.pow_le_pow_right (by omega) (by omega)
      omega
    rw [parseIntVal, if_pos (by omega), f64RoundNat, if_pos h]

/-- Witness for C9 at a list with a numeric tie and at a small digit
run. -/
theorem C9_witness :
    (∃ out, sortFrameNames ["b3", "a3", "c1"] = some out ∧
      out.Perm ["b3", "a3", "c1"] ∧
      out.Pairwise (fun a b => keyLE (keyOf a) (keyOf b) = true) ∧
      ∀ k, out.filter (fun nm => keyOf nm == k) =
        (["b3", "a3", "c1"] : List String).filter (fun nm => keyOf nm == k)) ∧
    parseIntVal ['4', '2'] = JsNum.finite 42 := by
  refine ⟨C9_numeric_sort.2.1 ["b3", "a3", "c1"] (by decide), ?_⟩
  have h := C9_numeric_sort.2.2 ['4', '2'] (by decide)
  rw [h]
  decide


/-- C10 counterexample: a single digit-less archive name sorts without
any error (the comparator is never invoked on a one-element list), so
"if any frame name contains no decimal digit, the sort raises an error"
does not hold as stated. -/
theorem C10_counterexample :
    numKey "frames" = none ∧ sortFrameNames ["frames"] = some ["frames"] := by
  decide

/-- C10 (amended): with at least two names, any digit-less name makes the
comparator throw and the whole sort (hence the archive load) fail; the
sort is total on lists in which every name has a digit, and on lists of
at most one name, where the comparator never runs. -/
theorem C10_sort_totality :
    (∀ names, 2 ≤ names.length → (∃ nm ∈ names, numKey nm = none) →
      sortFrameNames names = none) ∧
    (∀ names, (∀ nm ∈ names, (numKey nm).isSome = true) →
      (sortFrameNames names).isSome = true) ∧
    (∀ names, names.length ≤ 1 → sortFrameNames names = some names) := by
  refine ⟨?_, ?_, ?_⟩
  · rintro names hlen ⟨nm, hmem, hnone⟩
    have hall' : ¬ (names.all (fun nm => (numKey nm).isSome) = true) := by
      intro hall
      rw [List.all_eq_true] at hall
      have h2 := hall nm hmem
      rw [hnone] at h2
      exact Bool.noConfusion h2
    rw [sortFrameNames, if_neg (by omega), if_neg hall']
  · intro names hall
    by_cases hlen : names.length ≤ 1
    · rw [sortFrameNames, if_pos hlen]
      rfl
    · have hall' : names.all (fun nm => (numKey nm).isSome) = true := by
        rw [List.all_eq_true]
        exact hall
      rw [sortFrameNames, if_neg hlen, if_pos hall']
      rfl
  · intro names hlen
    rw [sortFrameNames, if_pos hlen]

/-- Witness for C10: a two-name list with one digit-less name fails, a
one-name list always loads. -/
theorem C10_witness :
    sortFrameNames ["frame1", "x"] = none ∧
    sortFrameNames ["solo"] = some ["solo"] := by
  refine ⟨?_, ?_⟩
  · exact C10_sort_totality.1 ["frame1", "x"] (by decide)
      ⟨"x", by decide, by decide⟩
  · exact C10_sort_totality.2.2 ["solo"] (by decide)

end PCV
